import Mathlib

/-!
# Verification of the WatchLyst recommendation backend

A shallow embedding, over `ℚ`, of the scoring / preference-learning core
(`scoring-system.js`), the initial recommendation queue builder
(`functions/src/recommendations.ts`) and the cache / batch-write subsystem
(`functions/lib/optimization-config.js`), together with proofs of the
specified properties.

JavaScript numbers are modelled as `Option ℚ`: `some q` is an ordinary
(finite) number, `none` stands for `NaN` (or for `undefined` flowing into
arithmetic, which JavaScript coerces to `NaN`).  Arithmetic propagates
`none` exactly as JavaScript propagates `NaN`, and `Math.max` / `Math.min`
return `NaN` when any argument is `NaN`.  The idiom `x || 0` used by the
source to read a possibly-missing dimension maps `undefined`, `NaN` and `0`
to `0` and is the identity on every other number; on this model it is
`Option.getD`-like reading with `none ↦ 0`.
-/

/-- A JavaScript number: `none` is `NaN` (or `undefined` in arithmetic). -/
abbrev JsNum := Option ℚ

/-- JavaScript `x || 0` applied to a number-or-missing value: `undefined`,
`NaN` and `0` all read as `0`; every other number reads as itself. -/
def orZero : JsNum → ℚ
  | none => 0
  | some q => q

/-- JavaScript `+` with `NaN` propagation. -/
def jadd : JsNum → JsNum → JsNum
  | some a, some b => some (a + b)
  | _, _ => none

/-- JavaScript `-` with `NaN` propagation. -/
def jsub : JsNum → JsNum → JsNum
  | some a, some b => some (a - b)
  | _, _ => none

/-- JavaScript `*` with `NaN` propagation. -/
def jmul : JsNum → JsNum → JsNum
  | some a, some b => some (a * b)
  | _, _ => none

/-- JavaScript `/` with `NaN` propagation (used only with nonzero divisors). -/
def jdiv : JsNum → JsNum → JsNum
  | some a, some b => some (a / b)
  | _, _ => none

/-- `Math.max` on two arguments: returns `NaN` if either argument is `NaN`. -/
def jmax : JsNum → JsNum → JsNum
  | some a, some b => some (max a b)
  | _, _ => none

/-- `Math.min` on two arguments: returns `NaN` if either argument is `NaN`. -/
def jmin : JsNum → JsNum → JsNum
  | some a, some b => some (min a b)
  | _, _ => none

/-- JavaScript `x > c` for a possibly-missing/NaN `x`: comparisons with
`NaN`/`undefined` are `false`. -/
def jgt (x : JsNum) (c : ℚ) : Bool :=
  match x with
  | some q => decide (c < q)
  | none => false

/-- The nine feature dimensions of `FEATURE_DIMENSIONS` in
`scoring-system.js` (6 genre strengths + popularity, recency, rating). -/
inductive Dim where
  | genre_action
  | genre_comedy
  | genre_drama
  | genre_horror
  | genre_romance
  | genre_scifi
  | popularity_normalized
  | recency_score
  | rating_normalized
  deriving DecidableEq, Repr

instance : Fintype Dim :=
  ⟨⟨{.genre_action, .genre_comedy, .genre_drama, .genre_horror, .genre_romance,
     .genre_scifi, .popularity_normalized, .recency_score, .rating_normalized}, by decide⟩,
   by intro x; cases x <;> decide⟩

/-- The key order of the `FEATURE_DIMENSIONS` object literal (`for … in`
iterates object keys in insertion order). -/
def FEATURE_DIMENSIONS : List Dim :=
  [.genre_action, .genre_comedy, .genre_drama, .genre_horror, .genre_romance,
   .genre_scifi, .popularity_normalized, .recency_score, .rating_normalized]

/-- The JavaScript property name of each dimension. -/
def dimName : Dim → String
  | .genre_action => "genre_action"
  | .genre_comedy => "genre_comedy"
  | .genre_drama => "genre_drama"
  | .genre_horror => "genre_horror"
  | .genre_romance => "genre_romance"
  | .genre_scifi => "genre_scifi"
  | .popularity_normalized => "popularity_normalized"
  | .recency_score => "recency_score"
  | .rating_normalized => "rating_normalized"

/-- A preference / feature vector: each dimension holds a JavaScript number
(`none` = `NaN`); a dimension missing from the underlying object is read
through `orZero` anyway, so it is identified with `NaN` here (both read as
`0` through `|| 0`). -/
abbrev Vec := Dim → JsNum

/-- `GESTURE_WEIGHTS` of `scoring-system.js`; property lookup of an unknown
gesture yields `undefined`, modelled as `none`. -/
def GESTURE_WEIGHTS : String → Option ℚ
  | "loved" => some 3
  | "liked" => some (3/2)
  | "seen" => some 0
  | "not_seen" => some 0
  | "disliked" => some (-(5/2))
  | _ => none

/-- `initializeUserPreferenceVector` of `scoring-system.js`. -/
def initializeUserPreferenceVector : Vec := fun _ => some 0

/-- Result object of `updateUserPreferences`. -/
structure UpdateResult where
  preferences : Vec
  gestureWeight : Option ℚ
  effectiveLearningRate : ℚ

/-- `updateUserPreferences` of `scoring-system.js`:
`GESTURE_WEIGHTS[action]` (possibly `undefined`), learning-rate decay
`learningRate * 0.95 ^ Math.floor(totalInteractions / 100)`, then per
dimension `Math.max(-1, Math.min(1, current + effRate * weight * (movie - current)))`
where `current`/`movie` are read through `|| 0`. -/
def updateUserPreferences (currentPreferences movieFeatures : Vec) (action : String)
    (learningRate : ℚ) (totalInteractions : ℕ) : UpdateResult :=
  let gestureWeight := GESTURE_WEIGHTS action
  let decayFactor : ℚ := 95/100
  let effectiveLearningRate := learningRate * decayFactor ^ (totalInteractions / 100)
  let updatedPreferences : Vec := fun dimension =>
    let currentValue := orZero (currentPreferences dimension)
    let movieValue := orZero (movieFeatures dimension)
    let update := jmul (jmul (some effectiveLearningRate) gestureWeight)
      (jsub (some movieValue) (some currentValue))
    jmax (some (-1)) (jmin (some 1) (jadd (some currentValue) update))
  { preferences := updatedPreferences
    gestureWeight := gestureWeight
    effectiveLearningRate := effectiveLearningRate }

/-- Result object of `calculateRecommendationScore`. -/
structure ScoreResult where
  baseScore : ℚ
  explorationBonus : ℚ
  finalScore : ℚ
  dotProduct : ℚ
  deriving DecidableEq, Repr

/-- `calculateRecommendationScore` of `scoring-system.js`.  The random draw
`Math.random()` is made explicit as the argument `rand ∈ [0,1)`; it is only
consulted when `isExploration` is set. -/
def calculateRecommendationScore (userPreferences movieFeatures : Vec)
    (explorationRate : ℚ) (isExploration : Bool) (rand : ℚ) : ScoreResult :=
  let baseScore0 :=
    (FEATURE_DIMENSIONS.map fun dimension =>
      orZero (userPreferences dimension) * orZero (movieFeatures dimension)).sum
  let dimensionCount : ℚ := (FEATURE_DIMENSIONS.length : ℚ)
  let baseScore := baseScore0 / dimensionCount
  let explorationBonus := if isExploration then rand * explorationRate else 0
  let finalScore := baseScore + explorationBonus
  { baseScore := baseScore
    explorationBonus := explorationBonus
    finalScore := finalScore
    dotProduct := baseScore * dimensionCount }

/-- `calculateExplorationRate` of `scoring-system.js`. -/
def calculateExplorationRate (totalInteractions likeRatio baseExplorationRate : ℚ) : ℚ :=
  let newUserBonus := max 0 ((50 - totalInteractions) / 50) * (1/10)
  let optimalLikeRatio : ℚ := 1/2
  let likeRatioDeviation := |likeRatio - optimalLikeRatio|
  let likeRatioAdjustment := likeRatioDeviation * (2/10)
  min (3/10) (baseExplorationRate + newUserBonus + likeRatioAdjustment)

/-- `GENRE_ID_MAPPING` of `scoring-system.js` (TMDB genre id → dimension). -/
def GENRE_ID_MAPPING : ℤ → Option Dim
  | 28 => some .genre_action
  | 12 => some .genre_action
  | 35 => some .genre_comedy
  | 18 => some .genre_drama
  | 27 => some .genre_horror
  | 10749 => some .genre_romance
  | 878 => some .genre_scifi
  | 14 => some .genre_scifi
  | 53 => some .genre_action
  | 80 => some .genre_action
  | 9648 => some .genre_drama
  | 10752 => some .genre_action
  | 37 => some .genre_action
  | 36 => some .genre_drama
  | 10402 => some .genre_drama
  | 10751 => some .genre_comedy
  | 16 => some .genre_comedy
  | 99 => some .genre_drama
  | 10770 => some .genre_drama
  | _ => none

/-- A movie document as read from the store.  `releaseDateParsed` is the
time value (milliseconds) of `new Date(movie.releaseDate)`; `none` stands
for an `Invalid Date`, whose time value is `NaN`. -/
structure Movie where
  id : String
  featureVector : Option Vec
  genreIds : Option (List ℤ)
  genres : Option (List String)
  popularity : JsNum
  voteAverage : JsNum
  releaseDateParsed : JsNum

/-- Genre strength assigned by `movieToFeatureVector`: occurrences of the
dimension among the mapped genre ids, divided by
`movie.genreIds.length || 1`.  Dimensions never assigned keep the initial
`0`, which coincides with a count of `0`. -/
def genreStrength (genreIds : Option (List ℤ)) (d : Dim) : ℚ :=
  match genreIds with
  | none => 0
  | some l =>
      let totalGenres : ℚ := if l.length = 0 then 1 else (l.length : ℚ)
      ((l.filter fun g => GENRE_ID_MAPPING g == some d).length : ℚ) / totalGenres

/-- `movieToFeatureVector` of `scoring-system.js`.  `now` is the time value
of `new Date()` in milliseconds. -/
def movieToFeatureVector (movie : Movie) (now : ℚ) : Vec := fun d =>
  match d with
  | .popularity_normalized => some (min 1 (orZero movie.popularity / 1000))
  | .recency_score =>
      let yearsDiff := jdiv (jsub (some now) movie.releaseDateParsed)
        (some (365 * 24 * 60 * 60 * 1000))
      jmax (some 0) (jmin (some 1) (jsub (some 1) (jdiv yearsDiff (some 10))))
  | .rating_normalized => some (orZero movie.voteAverage / 10)
  | g => some (genreStrength movie.genreIds g)

/-- One `processSwipeInteraction`-driven call of `updateUserPreferences`:
the gesture, the interacted movie's feature vector, and the learning
rate / interaction count passed for this call. -/
structure InteractionStep where
  action : String
  movieFeatures : Vec
  learningRate : ℚ
  totalInteractions : ℕ

/-- Successive preference updates: the vector after folding the given
interaction steps through `updateUserPreferences`. -/
def runUpdates (init : Vec) : List InteractionStep → Vec
  | [] => init
  | s :: rest =>
      runUpdates
        (updateUserPreferences init s.movieFeatures s.action s.learningRate
          s.totalInteractions).preferences rest

/-- A dimension value is a real number in `[-1, 1]` (`NaN` is not). -/
def dimInRange : JsNum → Prop
  | some q => -1 ≤ q ∧ q ≤ 1
  | none => False

instance (o : JsNum) : Decidable (dimInRange o) :=
  match o with
  | some q => inferInstanceAs (Decidable (-1 ≤ q ∧ q ≤ 1))
  | none => inferInstanceAs (Decidable False)

/-- Every dimension of the vector is a real number in `[-1, 1]`. -/
def InRange (v : Vec) : Prop := ∀ d, dimInRange (v d)

instance (v : Vec) : Decidable (InRange v) :=
  inferInstanceAs (Decidable (∀ d, dimInRange (v d)))

/-- A dimension value is a real number in `[0, 1]` (`NaN` is not). -/
def dimInRange01 : JsNum → Prop
  | some q => 0 ≤ q ∧ q ≤ 1
  | none => False

instance (o : JsNum) : Decidable (dimInRange01 o) :=
  match o with
  | some q => inferInstanceAs (Decidable (0 ≤ q ∧ q ≤ 1))
  | none => inferInstanceAs (Decidable False)

/-- A single `updateUserPreferences` call with a gesture from the weight
table yields a vector whose every dimension is clamped into `[-1,1]`. -/
theorem updateUserPreferences_step_range (prefs movie : Vec) (action : String)
    (lr : ℚ) (n : ℕ) (h : (GESTURE_WEIGHTS action).isSome) :
    InRange (updateUserPreferences prefs movie action lr n).preferences := by
  obtain ⟨w, hw⟩ := Option.isSome_iff_exists.mp h
  intro d
  simp only [updateUserPreferences, hw, jmul, jsub, jadd, jmin, jmax]
  exact ⟨le_max_left _ _, max_le (by norm_num) (min_le_left _ _)⟩

/-- Folding any list of in-table interaction steps from an in-range vector
stays in range. -/
theorem runUpdates_range : ∀ (steps : List InteractionStep) (init : Vec),
    (∀ s ∈ steps, (GESTURE_WEIGHTS s.action).isSome) → InRange init →
    InRange (runUpdates init steps) := by
  intro steps
  induction steps with
  | nil => intro init _ h0; exact h0
  | cons s rest ih =>
      intro init hg _
      exact ih _ (fun x hx => hg x (List.mem_cons_of_mem _ hx))
        (updateUserPreferences_step_range _ _ _ _ _ (hg s (List.mem_cons_self _ _)))

/-- C1: for every sequence of interactions whose gestures are all in the
weight table, starting from a preference vector whose every dimension lies
in `[-1,1]`, every dimension of every intermediate preference vector
produced by successive `updateUserPreferences` calls lies in `[-1,1]`,
regardless of the item feature vectors, the learning rates and the
interaction counts. -/
theorem updateUserPreferences_range
    (steps : List InteractionStep) (init : Vec)
    (hg : ∀ s ∈ steps, (GESTURE_WEIGHTS s.action).isSome)
    (h0 : InRange init) :
    ∀ k, InRange (runUpdates init (steps.take k)) := fun _ =>
  runUpdates_range _ init (fun s hs => hg s (List.mem_of_mem_take hs)) h0

/-- Witness for C1 at one concrete "loved" interaction on an item vector
with magnitude 5 in every dimension. -/
theorem updateUserPreferences_range_witness :
    InRange (runUpdates initializeUserPreferenceVector
      (List.take 1 [⟨"loved", fun _ => some 5, 1, 0⟩])) :=
  updateUserPreferences_range [⟨"loved", fun _ => some 5, 1, 0⟩]
    initializeUserPreferenceVector
    (by intro s hs; rw [List.mem_singleton] at hs; subst hs; decide)
    (by decide) 1

/-- C2: for every gesture in the weight table, `updateUserPreferences`
returns, on each dimension, exactly
`max (-1) (min 1 (current + learningRate * 0.95 ^ (n / 100) * weight * (item - current)))`
(missing dimensions read as 0); a gesture of weight 0 leaves a preference
vector with all 9 dimensions present and in `[-1,1]` unchanged. -/
theorem updateUserPreferences_formula (currentPreferences movieFeatures : Vec)
    (action : String) (w : ℚ) (learningRate : ℚ) (totalInteractions : ℕ)
    (hw : GESTURE_WEIGHTS action = some w) :
    (∀ d, (updateUserPreferences currentPreferences movieFeatures action
        learningRate totalInteractions).preferences d =
      some (max (-1) (min 1 (orZero (currentPreferences d) +
        learningRate * (95/100 : ℚ) ^ (totalInteractions / 100) * w *
          (orZero (movieFeatures d) - orZero (currentPreferences d)))))) ∧
    (w = 0 → InRange currentPreferences →
      ∀ d, (updateUserPreferences currentPreferences movieFeatures action
        learningRate totalInteractions).preferences d = currentPreferences d) := by
  constructor
  · intro d
    simp only [updateUserPreferences, hw, jmul, jsub, jadd, jmin, jmax]
  · intro hw0 hin d
    cases hcp : currentPreferences d with
    | none => have := hin d; rw [hcp] at this; exact this.elim
    | some q =>
        have hq := hin d
        rw [hcp] at hq
        obtain ⟨hq1, hq2⟩ := hq
        simp only [updateUserPreferences, hw, hw0, jmul, jsub, jadd, jmin, jmax, hcp, orZero,
          mul_zero, zero_mul, add_zero]
        rw [min_eq_right hq2, max_eq_right hq1]

/-- Witness for C2: one "liked" update from the all-zero vector toward an
all-ones item vector moves `genre_action` to `0.1 * 1.5 * 1 = 0.15`. -/
theorem updateUserPreferences_formula_witness :
    (updateUserPreferences initializeUserPreferenceVector (fun _ => some 1) "liked"
      (1/10) 0).preferences Dim.genre_action = some (3/20) := by
  have h := (updateUserPreferences_formula initializeUserPreferenceVector (fun _ => some 1)
    "liked" (3/2) (1/10) 0 rfl).1 Dim.genre_action
  rw [h]
  norm_num [initializeUserPreferenceVector, orZero, min_def, max_def]

/-- C3 evidence: a gesture outside the weight table is not rejected by
`updateUserPreferences`: the gesture weight lookup yields `undefined`
(`none`), the update arithmetic produces `NaN` (`none`) on every dimension,
so the returned vector is changed and out of the `[-1,1]` range, and no
error is signalled (the result is returned and then persisted by
`processSwipeInteraction`). -/
theorem updateUserPreferences_invalid_gesture :
    (∀ d, (updateUserPreferences initializeUserPreferenceVector (fun _ => some 1)
      "watched" (1/10) 0).preferences d = none) ∧
    (updateUserPreferences initializeUserPreferenceVector (fun _ => some 1)
      "watched" (1/10) 0).gestureWeight = none ∧
    (updateUserPreferences initializeUserPreferenceVector (fun _ => some 1)
      "watched" (1/10) 0).preferences Dim.genre_action ≠
        initializeUserPreferenceVector Dim.genre_action ∧
    ¬ InRange (updateUserPreferences initializeUserPreferenceVector (fun _ => some 1)
      "watched" (1/10) 0).preferences := by
  refine ⟨by decide, by decide, by decide, ?_⟩
  intro h
  have := h Dim.genre_action
  revert this
  decide

/-- Concrete input on which C4 fails: a movie whose release date does not
parse (`new Date` gives `Invalid Date`, time value `NaN`) has
`recency_score = NaN`, and a movie with negative `popularity` has
`popularity_normalized = min 1 (popularity / 1000) < 0`; neither lies in
`[0,1]`. -/
theorem movieToFeatureVector_out_of_range :
    (movieToFeatureVector ⟨"m1", none, some [], none, some (-1000), some 5, none⟩ 0)
        Dim.recency_score = none ∧
    (movieToFeatureVector ⟨"m1", none, some [], none, some (-1000), some 5, none⟩ 0)
        Dim.popularity_normalized = some (-1) ∧
    ¬ dimInRange01 ((movieToFeatureVector ⟨"m1", none, some [], none, some (-1000), some 5, none⟩ 0)
        Dim.recency_score) ∧
    ¬ dimInRange01 ((movieToFeatureVector ⟨"m1", none, some [], none, some (-1000), some 5, none⟩ 0)
        Dim.popularity_normalized) := by
  have hpop : (movieToFeatureVector ⟨"m1", none, some [], none, some (-1000), some 5, none⟩ 0)
      Dim.popularity_normalized = some (-1) := by
    simp only [movieToFeatureVector]
    norm_num [orZero, min_def]
  refine ⟨by decide, hpop, by decide, ?_⟩
  rw [hpop]; decide

/-- C4 (amended): for a movie whose release date parses to a time value `t`
and whose popularity is nonnegative (or missing), `movieToFeatureVector`
gives `recency_score = clamp (1 - yearsSinceRelease / 10) 0 1` and
`popularity_normalized = min 1 (popularity / 1000)`, and both lie in
`[0,1]`. -/
theorem movieToFeatureVector_content_dims (movie : Movie) (now t : ℚ)
    (hrel : movie.releaseDateParsed = some t) (hpop : 0 ≤ orZero movie.popularity) :
    (movieToFeatureVector movie now) Dim.recency_score =
      some (max 0 (min 1 (1 - ((now - t) / (365 * 24 * 60 * 60 * 1000)) / 10))) ∧
    dimInRange01 ((movieToFeatureVector movie now) Dim.recency_score) ∧
    (movieToFeatureVector movie now) Dim.popularity_normalized =
      some (min 1 (orZero movie.popularity / 1000)) ∧
    dimInRange01 ((movieToFeatureVector movie now) Dim.popularity_normalized) := by
  have h1 : (movieToFeatureVector movie now) Dim.recency_score =
      some (max 0 (min 1 (1 - ((now - t) / (365 * 24 * 60 * 60 * 1000)) / 10))) := by
    simp only [movieToFeatureVector, hrel, jdiv, jsub, jmin, jmax]
  have h2 : (movieToFeatureVector movie now) Dim.popularity_normalized =
      some (min 1 (orZero movie.popularity / 1000)) := rfl
  refine ⟨h1, ?_, h2, ?_⟩
  · rw [h1]
    exact ⟨le_max_left _ _, max_le (by norm_num) (min_le_left _ _)⟩
  · rw [h2]
    exact ⟨le_min (by norm_num) (div_nonneg hpop (by norm_num)), min_le_left _ _⟩

/-- Witness for C4 (amended) at a movie released at epoch time 0, scored at
epoch time 0, with popularity 500. -/
theorem movieToFeatureVector_content_dims_witness :
    dimInRange01 ((movieToFeatureVector ⟨"m2", none, none, none, some 500, some 8, some 0⟩ 0)
      Dim.recency_score) ∧
    (movieToFeatureVector ⟨"m2", none, none, none, some 500, some 8, some 0⟩ 0)
      Dim.popularity_normalized = some (1/2) := by
  obtain ⟨h1, h2, h3, h4⟩ := movieToFeatureVector_content_dims
    ⟨"m2", none, none, none, some 500, some 8, some 0⟩ 0 0 rfl (by decide)
  refine ⟨h2, ?_⟩
  rw [h3]
  norm_num [orZero, min_def]

/-- Concrete input on which C5 fails: with `explorationRate = 0` and the
candidate flagged for exploration, the bonus is `Math.random() * 0 = 0`, so
`finalScore = baseScore` and there is no `b` with `0 ≤ b < explorationRate`
(the interval `[0, 0)` is empty). -/
theorem calculateRecommendationScore_rate_zero :
    (calculateRecommendationScore (fun _ => some 0) (fun _ => some 0) 0 true (1/2)).finalScore =
      (calculateRecommendationScore (fun _ => some 0) (fun _ => some 0) 0 true (1/2)).baseScore ∧
    ¬ ∃ b : ℚ, 0 ≤ b ∧ b < 0 ∧
      (calculateRecommendationScore (fun _ => some 0) (fun _ => some 0) 0 true (1/2)).finalScore =
        (calculateRecommendationScore (fun _ => some 0) (fun _ => some 0) 0 true (1/2)).baseScore
          + b := by
  constructor
  · simp [calculateRecommendationScore]
  · rintro ⟨b, hb0, hb1, -⟩
    exact absurd (hb0.trans_lt hb1) (lt_irrefl 0)

/-- C5 (amended): `baseScore` is the 9-dimensional dot product (missing
dimensions read as 0) divided by 9; with `isExploration = false` the bonus
is exactly 0 and `finalScore = baseScore` (deterministic); with the
candidate flagged and `explorationRate > 0`, for a random draw
`rand ∈ [0,1)`, `finalScore = baseScore + b` with `0 ≤ b < explorationRate`
(the bonus is `rand * explorationRate`, which is 0 when the rate is 0). -/
theorem calculateRecommendationScore_spec (u m : Vec) (rate rand : ℚ)
    (h0 : 0 ≤ rand) (h1 : rand < 1) (hrate : 0 < rate) :
    (calculateRecommendationScore u m rate false rand).baseScore =
      (FEATURE_DIMENSIONS.map fun d => orZero (u d) * orZero (m d)).sum / 9 ∧
    (calculateRecommendationScore u m rate true rand).baseScore =
      (FEATURE_DIMENSIONS.map fun d => orZero (u d) * orZero (m d)).sum / 9 ∧
    (calculateRecommendationScore u m rate false rand).explorationBonus = 0 ∧
    (calculateRecommendationScore u m rate false rand).finalScore =
      (calculateRecommendationScore u m rate false rand).baseScore ∧
    (calculateRecommendationScore u m rate true rand).finalScore =
      (calculateRecommendationScore u m rate true rand).baseScore +
        (calculateRecommendationScore u m rate true rand).explorationBonus ∧
    0 ≤ (calculateRecommendationScore u m rate true rand).explorationBonus ∧
    (calculateRecommendationScore u m rate true rand).explorationBonus < rate := by
  have hlen : ((FEATURE_DIMENSIONS.length : ℕ) : ℚ) = 9 := by norm_num [FEATURE_DIMENSIONS]
  have hbonus : (calculateRecommendationScore u m rate true rand).explorationBonus =
      rand * rate := by simp [calculateRecommendationScore]
  refine ⟨?_, ?_, ?_, ?_, rfl, ?_, ?_⟩
  · simp only [calculateRecommendationScore]
    rw [hlen]
  · simp only [calculateRecommendationScore]
    rw [hlen]
  · simp [calculateRecommendationScore]
  · simp [calculateRecommendationScore]
  · rw [hbonus]
    exact mul_nonneg h0 hrate.le
  · rw [hbonus]
    calc rand * rate < 1 * rate := mul_lt_mul_of_pos_right h1 hrate
    _ = rate := one_mul rate

/-- Witness for C5 (amended) at the all-zero vectors, the default rate 0.15
and the draw 1/2. -/
theorem calculateRecommendationScore_spec_witness :
    0 ≤ (calculateRecommendationScore (fun _ => some 0) (fun _ => some 0) (15/100) true
      (1/2)).explorationBonus ∧
    (calculateRecommendationScore (fun _ => some 0) (fun _ => some 0) (15/100) true
      (1/2)).explorationBonus < 15/100 :=
  ⟨(calculateRecommendationScore_spec (fun _ => some 0) (fun _ => some 0) (15/100) (1/2)
      (by norm_num) (by norm_num) (by norm_num)).2.2.2.2.2.1,
   (calculateRecommendationScore_spec (fun _ => some 0) (fun _ => some 0) (15/100) (1/2)
      (by norm_num) (by norm_num) (by norm_num)).2.2.2.2.2.2⟩

/-- C6: `calculateExplorationRate` is exactly
`min 0.3 (base + max 0 ((50 - n)/50) * 0.1 + |likeRatio - 0.5| * 0.2)`,
never exceeds the hard ceiling 0.3, and is larger at 5 interactions than at
100 (like ratio 0.5, base 0.15). -/
theorem calculateExplorationRate_spec :
    (∀ t l b : ℚ, calculateExplorationRate t l b =
      min (3/10) (b + max 0 ((50 - t) / 50) * (1/10) + |l - 1/2| * (2/10))) ∧
    (∀ t l b : ℚ, calculateExplorationRate t l b ≤ 3/10) ∧
    calculateExplorationRate 5 (1/2) (15/100) > calculateExplorationRate 100 (1/2) (15/100) := by
  refine ⟨fun t l b => rfl, fun t l b => min_le_left _ _, ?_⟩
  have h5 : calculateExplorationRate 5 (1/2) (15/100) = 24/100 := by
    unfold calculateExplorationRate
    norm_num [min_def, max_def]
  have h100 : calculateExplorationRate 100 (1/2) (15/100) = 15/100 := by
    unfold calculateExplorationRate
    norm_num [min_def, max_def]
  rw [h5, h100]; norm_num

/-! ## Batch processor (`BatchProcessor` in `optimization-config.js`) -/

/-- `OptimizationConfig.batching.maxBatchSize`. -/
def maxBatchSize : ℕ := 500

/-- Observable state of the `BatchProcessor`: the in-memory `this.queue`,
the history of records committed to the store by successful bulk writes,
and the history of records accepted through `addItem`. -/
structure BPState (α : Type) where
  queue : List α
  written : List α
  accepted : List α

/-- One transition of the batch processor.
`addItem` pushes a record onto the queue.  A flush splices the first
`maxBatchSize` items off the queue and performs one atomic bulk write;
`extra` are the records accepted by concurrent `addItem` calls while the
write is in flight (they land behind the spliced-off batch).  On success
the batch is appended to the written history; on failure the code runs
`this.queue.unshift(...items)`, reinserting the entire flushed batch at the
front of the queue in its original order. -/
inductive BatchStep {α : Type} : BPState α → BPState α → Prop
  | addItem (s : BPState α) (item : α) :
      BatchStep s ⟨s.queue ++ [item], s.written, s.accepted ++ [item]⟩
  | flushOk (s : BPState α) (extra : List α) (h : s.queue ≠ []) :
      BatchStep s ⟨s.queue.drop maxBatchSize ++ extra,
        s.written ++ s.queue.take maxBatchSize, s.accepted ++ extra⟩
  | flushFail (s : BPState α) (extra : List α) (h : s.queue ≠ []) :
      BatchStep s ⟨s.queue.take maxBatchSize ++ (s.queue.drop maxBatchSize ++ extra),
        s.written, s.accepted ++ extra⟩

/-- Every batch-processor transition preserves `written ++ queue = accepted`:
no accepted record is ever lost, and order is preserved. -/
theorem batchStep_conserves {α : Type} {s t : BPState α} (h : BatchStep s t)
    (hs : s.written ++ s.queue = s.accepted) : t.written ++ t.queue = t.accepted := by
  cases h with
  | addItem item =>
      show s.written ++ (s.queue ++ [item]) = s.accepted ++ [item]
      rw [← List.append_assoc, hs]
  | flushOk extra h =>
      show (s.written ++ s.queue.take maxBatchSize) ++ (s.queue.drop maxBatchSize ++ extra)
        = s.accepted ++ extra
      rw [List.append_assoc, ← List.append_assoc (s.queue.take maxBatchSize),
        List.take_append_drop, ← List.append_assoc, hs]
  | flushFail extra h =>
      show s.written ++ (s.queue.take maxBatchSize ++ (s.queue.drop maxBatchSize ++ extra))
        = s.accepted ++ extra
      rw [← List.append_assoc (s.queue.take maxBatchSize), List.take_append_drop,
        ← List.append_assoc, hs]

/-- C8: from an initial state whose queue holds exactly the accepted records
and nothing written yet, every reachable state satisfies
`written ++ queue = accepted` — on a failed flush the entire flushed batch
is reinserted at the front in its original order (the requeued queue is
`take maxBatchSize ++ drop maxBatchSize = ` the old queue, with records
added during the flush behind it), so nothing is lost — and whenever the
queue drains, every accepted record has been written at least once. -/
theorem batchProcessor_at_least_once {α : Type} (s0 s : BPState α)
    (h0 : s0.written = [] ∧ s0.accepted = s0.queue)
    (h : Relation.ReflTransGen BatchStep s0 s) :
    s.written ++ s.queue = s.accepted ∧
    s.queue.take maxBatchSize ++ s.queue.drop maxBatchSize = s.queue ∧
    (s.queue = [] → ∀ x ∈ s.accepted, x ∈ s.written) := by
  have hinv : s.written ++ s.queue = s.accepted := by
    induction h with
    | refl => rw [h0.1, h0.2]; rfl
    | tail _ hstep ih => exact batchStep_conserves hstep ih
  refine ⟨hinv, List.take_append_drop _ _, ?_⟩
  intro hq x hx
  rw [← hinv, hq, List.append_nil] at hx
  exact hx

/-- Witness for C8: the record `5` is accepted, a flush fails (requeuing
it), a second flush succeeds; afterwards it is in the written history. -/
theorem batchProcessor_at_least_once_witness :
    (5 : ℕ) ∈ (⟨[], [5], [5]⟩ : BPState ℕ).written := by
  have t1 : BatchStep (⟨[5], [], [5]⟩ : BPState ℕ) ⟨[5], [], [5]⟩ :=
    BatchStep.flushFail ⟨[5], [], [5]⟩ [] (by decide)
  have t2 : BatchStep (⟨[5], [], [5]⟩ : BPState ℕ) ⟨[], [5], [5]⟩ :=
    BatchStep.flushOk ⟨[5], [], [5]⟩ [] (by decide)
  have h := batchProcessor_at_least_once (⟨[5], [], [5]⟩ : BPState ℕ) ⟨[], [5], [5]⟩
    ⟨rfl, rfl⟩ (Relation.ReflTransGen.head t1 (Relation.ReflTransGen.head t2
      Relation.ReflTransGen.refl))
  exact h.2.2 rfl 5 (by decide)

/-! ## In-memory cache (`MemoryCache` in `optimization-config.js`) -/

/-- An entry of the in-memory cache: the stored value and its absolute
expiry time (`Date.now() + ttlSeconds * 1000`, in milliseconds). -/
structure CacheEntry (V : Type) where
  value : V
  expiry : ℚ
  deriving DecidableEq

/-- The backing JavaScript `Map` of `MemoryCache`, as its key → entry
bindings in insertion order.  `Map.set` on an existing key updates the
entry in place (keeping its position); a new key is appended at the end. -/
abbrev CacheMap (V : Type) := List (String × CacheEntry V)

/-- JavaScript `Map.set`. -/
def mapSet {V : Type} (m : CacheMap V) (k : String) (e : CacheEntry V) : CacheMap V :=
  if m.any (fun p => p.1 == k) then
    m.map (fun p => if p.1 == k then (k, e) else p)
  else m ++ [(k, e)]

/-- JavaScript `Map.delete`. -/
def mapDelete {V : Type} (m : CacheMap V) (k : String) : CacheMap V :=
  m.filter (fun p => !(p.1 == k))

/-- `MemoryCache.set`: if the map already holds at least `maxSize` entries,
first delete the first (oldest-inserted) key of the map — independent of
any TTLs — then store the value with expiry `now + ttlSeconds * 1000`.
(On an empty map, `keys().next().value` is `undefined` and
`delete(undefined)` is a no-op.) -/
def cacheSet {V : Type} (maxSize : ℕ) (m : CacheMap V) (k : String) (v : V)
    (ttlSeconds now : ℚ) : CacheMap V :=
  let m' := if maxSize ≤ m.length then
      match m with
      | [] => m
      | (k0, _) :: _ => mapDelete m k0
    else m
  mapSet m' k ⟨v, now + ttlSeconds * 1000⟩

/-- `MemoryCache.get`, value part: an entry past its TTL reads as absent. -/
def cacheGet {V : Type} (m : CacheMap V) (k : String) (now : ℚ) : Option V :=
  match m.find? (fun p => p.1 == k) with
  | none => none
  | some p => if p.2.expiry < now then none else some p.2.value

/-- `MemoryCache.get`, state part: an entry past its TTL is deleted lazily. -/
def cacheGetState {V : Type} (m : CacheMap V) (k : String) (now : ℚ) : CacheMap V :=
  match m.find? (fun p => p.1 == k) with
  | none => m
  | some p => if p.2.expiry < now then mapDelete m k else m

/-- One cache operation (`Date.now()` made explicit as `now`). -/
inductive CacheOp (V : Type) where
  | set (k : String) (v : V) (ttlSeconds now : ℚ)
  | get (k : String) (now : ℚ)
  | clear
  deriving DecidableEq

/-- Effect of one operation on the backing map. -/
def applyOp {V : Type} (maxSize : ℕ) (m : CacheMap V) : CacheOp V → CacheMap V
  | .set k v ttlSeconds now => cacheSet maxSize m k v ttlSeconds now
  | .get k now => cacheGetState m k now
  | .clear => []

/-- The map reached from a fresh `MemoryCache(maxSize)` after a sequence of
operations. -/
def cacheRun {V : Type} (maxSize : ℕ) (ops : List (CacheOp V)) : CacheMap V :=
  ops.foldl (applyOp maxSize) []

/-- Cache invariant: entry count bounded by the capacity, and `Map` keys
pairwise distinct. -/
def CacheInv {V : Type} (N : ℕ) (m : CacheMap V) : Prop :=
  m.length ≤ N ∧ (m.map (fun p => p.1)).Nodup

/-- Re-`set`ting a key already present in the map leaves the key sequence
unchanged (JavaScript `Map.set` updates in place). -/
theorem keys_mapSet_present {V : Type} (m : CacheMap V) (k : String) (e : CacheEntry V)
    (hp : m.any (fun p => p.1 == k) = true) :
    (mapSet m k e).map (fun p => p.1) = m.map (fun p => p.1) := by
  unfold mapSet
  rw [if_pos hp, List.map_map]
  apply List.map_congr_left
  intro p _
  by_cases hk : p.1 = k
  · simp [Function.comp, hk]
  · simp [Function.comp, hk]

/-- `set`ting a fresh key appends it to the key sequence. -/
theorem keys_mapSet_absent {V : Type} (m : CacheMap V) (k : String) (e : CacheEntry V)
    (hp : ¬ (m.any (fun p => p.1 == k) = true)) :
    (mapSet m k e).map (fun p => p.1) = m.map (fun p => p.1) ++ [k] := by
  unfold mapSet
  rw [if_neg hp, List.map_append]
  rfl

/-- A key absent from the `any` test is not among the map's keys. -/
theorem not_mem_keys_of_not_any {V : Type} (m : CacheMap V) (k : String)
    (hp : ¬ (m.any (fun p => p.1 == k) = true)) :
    k ∉ m.map (fun p => p.1) := by
  intro hmem
  apply hp
  rw [List.any_eq_true]
  obtain ⟨p, hpm, hpk⟩ := List.mem_map.mp hmem
  exact ⟨p, hpm, by simp [hpk]⟩

/-- `mapSet` preserves distinctness of keys. -/
theorem nodup_keys_mapSet {V : Type} (m : CacheMap V) (k : String) (e : CacheEntry V)
    (h : (m.map (fun p => p.1)).Nodup) :
    ((mapSet m k e).map (fun p => p.1)).Nodup := by
  by_cases hp : m.any (fun p => p.1 == k) = true
  · rw [keys_mapSet_present m k e hp]; exact h
  · rw [keys_mapSet_absent m k e hp]
    simp only [List.nodup_append, List.nodup_singleton, true_and]
    exact ⟨h, by simpa using not_mem_keys_of_not_any m k hp⟩

/-- `mapSet` grows the map by at most one binding. -/
theorem length_mapSet_le {V : Type} (m : CacheMap V) (k : String) (e : CacheEntry V) :
    (mapSet m k e).length ≤ m.length + 1 := by
  unfold mapSet
  split
  · rw [List.length_map]; omega
  · rw [List.length_append]; simp

/-- Every key of `mapSet m k e` is a key of `m` or is `k`. -/
theorem mem_keys_mapSet {V : Type} (m : CacheMap V) (k : String) (e : CacheEntry V)
    (x : String) (hx : x ∈ (mapSet m k e).map (fun p => p.1)) :
    x ∈ m.map (fun p => p.1) ∨ x = k := by
  by_cases hp : m.any (fun p => p.1 == k) = true
  · rw [keys_mapSet_present m k e hp] at hx; exact Or.inl hx
  · rw [keys_mapSet_absent m k e hp, List.mem_append] at hx
    rcases hx with hx | hx
    · exact Or.inl hx
    · exact Or.inr (by simpa using hx)

/-- Deleting the head key of a map with distinct keys leaves exactly the
tail. -/
theorem mapDelete_cons_self {V : Type} (k0 : String) (e0 : CacheEntry V) (rest : CacheMap V)
    (h : k0 ∉ rest.map (fun p => p.1)) :
    mapDelete ((k0, e0) :: rest) k0 = rest := by
  unfold mapDelete
  rw [List.filter_cons]
  have hhead : (!((k0, e0).1 == k0)) = false := by simp
  rw [hhead]
  simp only [Bool.false_eq_true, if_false]
  apply List.filter_eq_self.mpr
  intro p hp
  have : p.1 ≠ k0 := fun hc => h (List.mem_map.mpr ⟨p, hp, hc⟩)
  simp [this]

/-- `mapDelete` never grows the map and preserves key distinctness. -/
theorem mapDelete_sublist {V : Type} (m : CacheMap V) (k : String) :
    List.Sublist (mapDelete m k) m := List.filter_sublist m

/-- Capacity-and-distinctness invariant is preserved by every operation. -/
theorem cacheInv_applyOp {V : Type} (N : ℕ) (hN : 1 ≤ N) (m : CacheMap V)
    (inv : CacheInv N m) (op : CacheOp V) : CacheInv N (applyOp N m op) := by
  obtain ⟨hlen, hnd⟩ := inv
  cases op with
  | clear => exact ⟨by simp [applyOp], by simp [applyOp]⟩
  | get k now =>
      show CacheInv N (cacheGetState m k now)
      unfold cacheGetState
      cases m.find? (fun p => p.1 == k) with
      | none => exact ⟨hlen, hnd⟩
      | some p =>
          dsimp only
          split
          · refine ⟨le_trans (List.Sublist.length_le (mapDelete_sublist m k)) hlen, ?_⟩
            exact List.Nodup.sublist (List.Sublist.map _ (mapDelete_sublist m k)) hnd
          · exact ⟨hlen, hnd⟩
  | set k v ttlSeconds now =>
      show CacheInv N (cacheSet N m k v ttlSeconds now)
      unfold cacheSet
      by_cases hcap : N ≤ m.length
      · cases m with
        | nil => simp at hcap; omega
        | cons p rest =>
            obtain ⟨k0, e0⟩ := p
            have hnd' : (k0 :: rest.map (fun q => q.1)).Nodup := by
              simpa only [List.map_cons] using hnd
            have hk0 : k0 ∉ rest.map (fun q => q.1) := (List.nodup_cons.mp hnd').1
            have hrest_nd : (rest.map (fun q => q.1)).Nodup := (List.nodup_cons.mp hnd').2
            show CacheInv N (mapSet
              (if N ≤ ((k0, e0) :: rest).length then mapDelete ((k0, e0) :: rest) k0
               else (k0, e0) :: rest) k ⟨v, now + ttlSeconds * 1000⟩)
            rw [if_pos hcap, mapDelete_cons_self k0 e0 rest hk0]
            refine ⟨?_, nodup_keys_mapSet _ _ _ hrest_nd⟩
            have h1 : (mapSet rest k ⟨v, now + ttlSeconds * 1000⟩).length ≤ rest.length + 1 :=
              length_mapSet_le _ _ _
            have h2 : rest.length + 1 ≤ N := by simpa using hlen
            exact le_trans h1 h2
      · rw [if_neg hcap]
        push_neg at hcap
        refine ⟨?_, nodup_keys_mapSet _ _ _ hnd⟩
        exact le_trans (length_mapSet_le _ _ _) (by omega)

/-- The invariant holds in every state reached from the empty map. -/
theorem cacheRun_inv {V : Type} (N : ℕ) (hN : 1 ≤ N) (ops : List (CacheOp V)) :
    CacheInv N (cacheRun N ops) := by
  suffices h : ∀ (l : List (CacheOp V)) (m : CacheMap V), CacheInv N m →
      CacheInv N (l.foldl (applyOp N) m) by
    exact h ops [] ⟨by simp, by simp⟩
  intro l
  induction l with
  | nil => intro m hm; exact hm
  | cons op rest ih => intro m hm; exact ih _ (cacheInv_applyOp N hN m hm op)

/-- When `set` fires on a full cache, the oldest-inserted key (the head of
the insertion-ordered map) is gone afterwards — independent of TTLs. -/
theorem cacheSet_evicts_oldest {V : Type} (N : ℕ) (m : CacheMap V)
    (inv : CacheInv N m) (k0 : String) (e0 : CacheEntry V) (rest : CacheMap V)
    (hm : m = (k0, e0) :: rest) (hfull : m.length = N) (k : String) (hk : k0 ≠ k)
    (v : V) (ttlSeconds now : ℚ) :
    k0 ∉ (cacheSet N m k v ttlSeconds now).map (fun p => p.1) := by
  subst hm
  obtain ⟨hlen, hnd⟩ := inv
  have hnd' : (k0 :: rest.map (fun q => q.1)).Nodup := by
    simpa only [List.map_cons] using hnd
  have hk0 : k0 ∉ rest.map (fun q => q.1) := (List.nodup_cons.mp hnd').1
  show k0 ∉ (mapSet
      (if N ≤ ((k0, e0) :: rest).length then mapDelete ((k0, e0) :: rest) k0
       else (k0, e0) :: rest) k ⟨v, now + ttlSeconds * 1000⟩).map (fun p => p.1)
  rw [if_pos (le_of_eq hfull.symm), mapDelete_cons_self k0 e0 rest hk0]
  intro hmem
  rcases mem_keys_mapSet rest k ⟨v, now + ttlSeconds * 1000⟩ k0 hmem with h | h
  · exact hk0 h
  · exact hk h

/-- C9: for every capacity `N ≥ 1` and every sequence of `set`/`get`/`clear`
operations from a fresh cache, the number of stored entries never exceeds
`N`, and when `set` is invoked while the store holds `N` entries the
oldest-inserted entry is deleted (its key is absent afterwards, the new key
being different), independent of TTL expiry. -/
theorem memoryCache_capacity {V : Type} (N : ℕ) (hN : 1 ≤ N) (ops : List (CacheOp V)) :
    (cacheRun N ops).length ≤ N ∧
    ((cacheRun N ops).map (fun p => p.1)).Nodup ∧
    (∀ (k : String) (v : V) (ttlSeconds now : ℚ) (k0 : String) (e0 : CacheEntry V)
        (rest : CacheMap V),
      cacheRun N ops = (k0, e0) :: rest → (cacheRun N ops).length = N → k0 ≠ k →
      k0 ∉ (applyOp N (cacheRun N ops) (.set k v ttlSeconds now)).map (fun p => p.1)) := by
  obtain ⟨h1, h2⟩ := cacheRun_inv N hN ops (V := V)
  refine ⟨h1, h2, ?_⟩
  intro k v ttlSeconds now k0 e0 rest hm hfull hk
  exact cacheSet_evicts_oldest N (cacheRun N ops) ⟨h1, h2⟩ k0 e0 rest hm hfull k hk v
    ttlSeconds now

/-- Witness for C9: capacity 1; after `set "a"` the store is full, and a
subsequent `set "b"` evicts `"a"` even though its TTL has not expired. -/
theorem memoryCache_capacity_witness :
    "a" ∉ (applyOp 1 (cacheRun 1 [CacheOp.set "a" (0 : ℕ) 10 0])
      (CacheOp.set "b" (0 : ℕ) 10 0)).map (fun p => p.1) :=
  (memoryCache_capacity 1 (by norm_num) [CacheOp.set "a" (0 : ℕ) 10 0]).2.2
    "b" 0 10 0 "a" ⟨0, 0 + 10 * 1000⟩ [] rfl rfl (by decide)

/-! ## Initial recommendation queue (`generateInitialRecommendations` in
`functions/src/recommendations.ts`) -/

/-- Character-list prefix test (used by the substring test below). -/
def charsStartWith : List Char → List Char → Bool
  | _, [] => true
  | [], _ :: _ => false
  | a :: as, b :: bs => a == b && charsStartWith as bs

/-- Character-list substring test. -/
def charsContain : List Char → List Char → Bool
  | [], pat => pat.isEmpty
  | s@(_ :: rest), pat => charsStartWith s pat || charsContain rest pat

/-- JavaScript `String.prototype.includes`. -/
def jsIncludes (s pat : String) : Bool := charsContain s.toList pat.toList

/-- JavaScript `String.prototype.toLowerCase` (ASCII-faithful). -/
def jsToLower (s : String) : String := String.mk (s.data.map Char.toLower)

/-- The seeded initial preference vector of `generateInitialRecommendations`:
all zero, except that each selected category whose `genre_<category>` key
exists on the vector boosts that dimension to `0.5`. -/
def initialPreferencesFor (selectedCategories : List String) : Vec := fun d =>
  if selectedCategories.any (fun category => ("genre_" ++ jsToLower category) == dimName d)
  then some (1/2) else some 0

/-- A scored, reason-tagged candidate (the element of `scoredMovies` in
`generateInitialRecommendations`; the `movie` back-pointer is dropped, the
queue never reads it). -/
structure ScoredMovie where
  movieId : String
  score : ℚ
  reason : String
  scoreDetails : ScoreResult
  deriving DecidableEq, Repr

/-- The body of the `allMovies.map(...)` in `generateInitialRecommendations`:
score against the seeded preferences (exploration disabled, so the random
draw is never consulted and is passed as 0), then tag with a reason —
`category_match` (+0.5 bonus) when some genre string contains some selected
category (case-insensitively), else `trending` (+0.3) when popularity > 100
and voteAverage > 7, else `exploration` (+0). -/
def scoreMovie (initialPreferences : Vec) (selectedCategories : List String) (now : ℚ)
    (movie : Movie) : ScoredMovie :=
  let features := match movie.featureVector with
    | some f => f
    | none => movieToFeatureVector movie now
  let scoreResult := calculateRecommendationScore initialPreferences features (15/100) false 0
  let step1 : String × ℚ :=
    match movie.genres with
    | some genres =>
        if genres.any (fun genre =>
            selectedCategories.any (fun cat => jsIncludes (jsToLower genre) (jsToLower cat)))
        then ("category_match", 1/2) else ("exploration", 0)
    | none => ("exploration", 0)
  let step2 : String × ℚ :=
    if jgt movie.popularity 100 && jgt movie.voteAverage 7 then
      (if step1.1 == "exploration" then ("trending", 3/10) else step1)
    else step1
  { movieId := movie.id
    score := scoreResult.finalScore + step2.2
    reason := step2.1
    scoreDetails := scoreResult }

/-- An entry of the recommendation queue document. -/
structure QueueEntry where
  movieId : String
  score : ℚ
  reason : String
  position : ℕ
  deriving DecidableEq, Repr

/-- Descending order on candidate scores (the comparator
`(a, b) => b.score - a.score`). -/
def scoreGe (a b : ScoredMovie) : Prop := b.score ≤ a.score

instance : DecidableRel scoreGe := fun a b => inferInstanceAs (Decidable (b.score ≤ a.score))

instance : IsTotal ScoredMovie scoreGe := ⟨fun a b => le_total b.score a.score⟩

instance : IsTrans ScoredMovie scoreGe := ⟨fun _ _ _ h1 h2 => le_trans h2 h1⟩

/-- `scoredMovies.sort((a, b) => b.score - a.score)`: a stable descending
sort by score. -/
def sortScored (l : List ScoredMovie) : List ScoredMovie := List.insertionSort scoreGe l

/-- One pass of the bucket-filling loop of `generateInitialRecommendations`
for a fixed reason: walk the sorted candidates, appending each candidate
with that reason that is not yet in the `addedMovies` set, until the
per-reason target count is reached; each pushed entry's `position` is the
queue length at push time. -/
def addByReasonGo (reason : String) (targetCount : ℕ) :
    List ScoredMovie → ℕ → List QueueEntry → List String →
      List QueueEntry × List String
  | [], _, queue, added => (queue, added)
  | item :: rest, addedCnt, queue, added =>
      if item.reason = reason ∧ item.movieId ∉ added ∧ addedCnt < targetCount then
        addByReasonGo reason targetCount rest (addedCnt + 1)
          (queue ++ [⟨item.movieId, item.score, item.reason, queue.length⟩])
          (added ++ [item.movieId])
      else
        addByReasonGo reason targetCount rest addedCnt queue added

/-- The final filling loop of `generateInitialRecommendations`: walk the
sorted candidates again, appending every not-yet-added candidate tagged
`preference_match` while the queue holds fewer than 50 entries. -/
def fillGo : List ScoredMovie → List QueueEntry → List String →
    List QueueEntry × List String
  | [], queue, added => (queue, added)
  | item :: rest, queue, added =>
      if item.movieId ∉ added ∧ queue.length < 50 then
        fillGo rest (queue ++ [⟨item.movieId, item.score, "preference_match", queue.length⟩])
          (added ++ [item.movieId])
      else fillGo rest queue added

/-- The queue-building phase of `generateInitialRecommendations` applied to
the sorted scored candidates: reason buckets in priority order with target
distribution `⌊50·0.6⌋ = 30`, `⌊50·0.25⌋ = 12`, `⌊50·0.15⌋ = 7` (the
floating-point products round to 30, 12.5 and 7.5), then the fill loop. -/
def buildQueue (scoredSorted : List ScoredMovie) : List QueueEntry :=
  let p1 := addByReasonGo "category_match" (50 * 60 / 100) scoredSorted 0 [] []
  let p2 := addByReasonGo "trending" (50 * 25 / 100) scoredSorted 0 p1.1 p1.2
  let p3 := addByReasonGo "exploration" (50 * 15 / 100) scoredSorted 0 p2.1 p2.2
  (fillGo scoredSorted p3.1 p3.2).1

/-- The sorted scored candidate pool of `generateInitialRecommendations`. -/
def scoredPool (selectedCategories : List String) (allMovies : List Movie) (now : ℚ) :
    List ScoredMovie :=
  sortScored (allMovies.map
    (scoreMovie (initialPreferencesFor selectedCategories) selectedCategories now))

/-- The full queue computation of `generateInitialRecommendations`. -/
def generateInitialQueue (selectedCategories : List String) (allMovies : List Movie)
    (now : ℚ) : List QueueEntry :=
  buildQueue (scoredPool selectedCategories allMovies now)

/-- The item identifiers of a candidate list. -/
def idsOf (l : List ScoredMovie) : List String := l.map fun it => it.movieId

/-- Turn consecutive candidates into queue entries with consecutive
positions starting at `pos`, tagging each entry with `tag`. -/
def stampFrom (tag : ScoredMovie → String) : ℕ → List ScoredMovie → List QueueEntry
  | _, [] => []
  | pos, it :: rest => ⟨it.movieId, it.score, tag it, pos⟩ :: stampFrom tag (pos + 1) rest

/-- Spec-side bucket (C7): the up-to-30 highest-scoring `category_match`
candidates of the descending-sorted pool. -/
def specBucketA (pool : List ScoredMovie) : List ScoredMovie :=
  (pool.filter fun it => decide (it.reason = "category_match")).take 30

/-- Spec-side bucket (C7): the up-to-12 highest-scoring untaken `trending`
candidates. -/
def specBucketB (pool : List ScoredMovie) : List ScoredMovie :=
  (pool.filter fun it =>
    decide (it.reason = "trending" ∧ it.movieId ∉ idsOf (specBucketA pool))).take 12

/-- Spec-side bucket (C7): the up-to-7 highest-scoring untaken `exploration`
candidates. -/
def specBucketC (pool : List ScoredMovie) : List ScoredMovie :=
  (pool.filter fun it =>
    decide (it.reason = "exploration" ∧
      it.movieId ∉ idsOf (specBucketA pool) ++ idsOf (specBucketB pool))).take 7

/-- Spec-side remainder (C7): the highest-scoring not-yet-added candidates,
as many as are needed to reach 50 entries. -/
def specFill (pool : List ScoredMovie) : List ScoredMovie :=
  (pool.filter fun it =>
    decide (it.movieId ∉
      idsOf (specBucketA pool) ++ idsOf (specBucketB pool) ++ idsOf (specBucketC pool))).take
    (50 - ((specBucketA pool).length + (specBucketB pool).length + (specBucketC pool).length))

/-- Spec-side description of the initial queue (C7): the reason buckets in
priority order, then the `preference_match` remainder, with dense positions
from 0. -/
def specInitialQueue (pool : List ScoredMovie) : List QueueEntry :=
  stampFrom (fun it => it.reason) 0 (specBucketA pool) ++
  stampFrom (fun it => it.reason) (specBucketA pool).length (specBucketB pool) ++
  stampFrom (fun it => it.reason)
    ((specBucketA pool).length + (specBucketB pool).length) (specBucketC pool) ++
  stampFrom (fun _ => "preference_match")
    ((specBucketA pool).length + (specBucketB pool).length + (specBucketC pool).length)
    (specFill pool)

/-- `idsOf` distributes over `cons`. -/
theorem idsOf_cons (it : ScoredMovie) (l : List ScoredMovie) :
    idsOf (it :: l) = it.movieId :: idsOf l := rfl

/-- Growing the `addedMovies` set by an identifier that does not occur in
the remaining candidates does not change which of them are untaken. -/
theorem filter_untaken_congr (rest : List ScoredMovie) (x : String) (added : List String)
    (hx : x ∉ idsOf rest) (P : ScoredMovie → Prop) [DecidablePred P] :
    (rest.filter fun it => decide (P it ∧ it.movieId ∉ added ++ [x])) =
      (rest.filter fun it => decide (P it ∧ it.movieId ∉ added)) := by
  apply List.filter_congr
  intro a ha
  have hax : a.movieId ≠ x := fun hc => hx (hc ▸ List.mem_map.mpr ⟨a, ha, rfl⟩)
  rw [decide_eq_decide]
  constructor
  · rintro ⟨h1, h2⟩
    exact ⟨h1, fun hmem => h2 (List.mem_append_left _ hmem)⟩
  · rintro ⟨h1, h2⟩
    refine ⟨h1, fun hmem => ?_⟩
    rcases List.mem_append.mp hmem with h | h
    · exact h2 h
    · exact hax (List.mem_singleton.mp h)

/-- Characterization of one bucket pass: starting from queue `queue`,
per-pass counter `cnt` and taken set `added`, the pass appends exactly the
first `targetCount - cnt` candidates (in list order) whose reason matches
and that are untaken, stamping consecutive positions from the current queue
length, and records their identifiers. -/
theorem addByReasonGo_eq (reason : String) (k : ℕ) :
    ∀ (s : List ScoredMovie) (cnt : ℕ) (queue : List QueueEntry) (added : List String),
      (idsOf s).Nodup →
      addByReasonGo reason k s cnt queue added =
        (queue ++ stampFrom (fun it => it.reason) queue.length
            ((s.filter fun it =>
              decide (it.reason = reason ∧ it.movieId ∉ added)).take (k - cnt)),
         added ++ idsOf ((s.filter fun it =>
              decide (it.reason = reason ∧ it.movieId ∉ added)).take (k - cnt))) := by
  intro s
  induction s with
  | nil =>
      intro cnt queue added _
      simp [addByReasonGo, stampFrom, idsOf]
  | cons item rest ih =>
      intro cnt queue added hnd
      rw [idsOf_cons, List.nodup_cons] at hnd
      obtain ⟨hid, hnd_rest⟩ := hnd
      by_cases hc : item.reason = reason ∧ item.movieId ∉ added ∧ cnt < k
      · have hpf : (fun it => decide (it.reason = reason ∧ it.movieId ∉ added)) item = true := by
          rw [decide_eq_true_eq]; exact ⟨hc.1, hc.2.1⟩
        have hkc : k - cnt = (k - (cnt + 1)) + 1 := by omega
        simp only [addByReasonGo]
        rw [if_pos hc, ih (cnt + 1) _ _ hnd_rest,
          filter_untaken_congr rest item.movieId added hid (fun it => it.reason = reason),
          @List.filter_cons_of_pos _ (fun it =>
            decide (it.reason = reason ∧ it.movieId ∉ added)) item rest hpf,
          hkc, List.take_succ_cons]
        simp only [Prod.mk.injEq]
        constructor
        · rw [stampFrom]
          rw [List.append_cons queue _ (stampFrom _ _ _)]
          have hlen : (queue ++ [(⟨item.movieId, item.score, item.reason, queue.length⟩ :
              QueueEntry)]).length = queue.length + 1 := by simp
          rw [hlen]
        · rw [idsOf_cons, List.append_cons added _ (idsOf _)]
      · simp only [addByReasonGo]
        rw [if_neg hc, ih cnt queue added hnd_rest]
        by_cases hp : item.reason = reason ∧ item.movieId ∉ added
        · have hcnt : ¬ cnt < k := fun hlt => hc ⟨hp.1, hp.2, hlt⟩
          have hk0 : k - cnt = 0 := by omega
          have hpf : (fun it => decide (it.reason = reason ∧ it.movieId ∉ added)) item
              = true := by rw [decide_eq_true_eq]; exact hp
          rw [@List.filter_cons_of_pos _ (fun it =>
            decide (it.reason = reason ∧ it.movieId ∉ added)) item rest hpf, hk0]
          simp [stampFrom, idsOf]
        · have hpf : ¬ ((fun it => decide (it.reason = reason ∧ it.movieId ∉ added)) item
              = true) := by simpa using hp
          rw [@List.filter_cons_of_neg _ (fun it =>
            decide (it.reason = reason ∧ it.movieId ∉ added)) item rest hpf]

/-- Characterization of the final fill pass: it appends exactly the first
`50 - queue.length` untaken candidates, tagged `preference_match`, with
consecutive positions from the current queue length. -/
theorem fillGo_eq :
    ∀ (s : List ScoredMovie) (queue : List QueueEntry) (added : List String),
      (idsOf s).Nodup →
      fillGo s queue added =
        (queue ++ stampFrom (fun _ => "preference_match") queue.length
            ((s.filter fun it => decide (it.movieId ∉ added)).take (50 - queue.length)),
         added ++ idsOf ((s.filter fun it =>
              decide (it.movieId ∉ added)).take (50 - queue.length))) := by
  intro s
  induction s with
  | nil =>
      intro queue added _
      simp [fillGo, stampFrom, idsOf]
  | cons item rest ih =>
      intro queue added hnd
      rw [idsOf_cons, List.nodup_cons] at hnd
      obtain ⟨hid, hnd_rest⟩ := hnd
      by_cases hc : item.movieId ∉ added ∧ queue.length < 50
      · have hpf : (fun it => decide (it.movieId ∉ added)) item = true := by
          rw [decide_eq_true_eq]; exact hc.1
        have hkc : 50 - queue.length = (50 - (queue.length + 1)) + 1 := by omega
        have hfc : (rest.filter fun it => decide (it.movieId ∉ added ++ [item.movieId])) =
            (rest.filter fun it => decide (it.movieId ∉ added)) := by
          have := filter_untaken_congr rest item.movieId added hid (fun _ => True)
          simpa using this
        simp only [fillGo]
        rw [if_pos hc, ih _ _ hnd_rest, hfc,
          @List.filter_cons_of_pos _ (fun it => decide (it.movieId ∉ added)) item rest hpf,
          hkc, List.take_succ_cons]
        have hlen : (queue ++ [(⟨item.movieId, item.score, "preference_match",
            queue.length⟩ : QueueEntry)]).length = queue.length + 1 := by simp
        simp only [Prod.mk.injEq]
        constructor
        · rw [stampFrom, List.append_cons queue _ (stampFrom _ _ _), hlen]
        · rw [idsOf_cons, List.append_cons added _ (idsOf _), hlen]
      · simp only [fillGo]
        rw [if_neg hc, ih queue added hnd_rest]
        by_cases hp : item.movieId ∉ added
        · have hcnt : ¬ queue.length < 50 := fun hlt => hc ⟨hp, hlt⟩
          have hk0 : 50 - queue.length = 0 := by omega
          have hpf : (fun it => decide (it.movieId ∉ added)) item = true := by
            rw [decide_eq_true_eq]; exact hp
          rw [@List.filter_cons_of_pos _ (fun it => decide (it.movieId ∉ added)) item rest hpf,
            hk0]
          simp [stampFrom, idsOf]
        · have hpf : ¬ ((fun it => decide (it.movieId ∉ added)) item = true) := by
            simpa using hp
          rw [@List.filter_cons_of_neg _ (fun it => decide (it.movieId ∉ added)) item rest hpf]

/-- Stamping preserves length. -/
theorem stampFrom_length (tag : ScoredMovie → String) :
    ∀ (p : ℕ) (l : List ScoredMovie), (stampFrom tag p l).length = l.length := by
  intro p l
  induction l generalizing p with
  | nil => rfl
  | cons it rest ih => simp [stampFrom, ih]

/-- The queue built by `generateInitialRecommendations` from a
duplicate-free sorted pool is exactly the spec-side stratified queue. -/
theorem buildQueue_eq_spec (pool : List ScoredMovie) (hnd : (idsOf pool).Nodup) :
    buildQueue pool = specInitialQueue pool := by
  have hA0 : (pool.filter fun it =>
      decide (it.reason = "category_match" ∧ it.movieId ∉ ([] : List String))) =
      (pool.filter fun it => decide (it.reason = "category_match")) := by
    apply List.filter_congr
    intro a _
    rw [decide_eq_decide]
    exact and_iff_left (List.not_mem_nil _)
  have h1 : addByReasonGo "category_match" (50 * 60 / 100) pool 0 [] [] =
      (stampFrom (fun it => it.reason) 0 (specBucketA pool), idsOf (specBucketA pool)) := by
    rw [addByReasonGo_eq "category_match" (50 * 60 / 100) pool 0 [] [] hnd, hA0]
    simp [specBucketA]
  have h2 : addByReasonGo "trending" (50 * 25 / 100) pool 0
      (stampFrom (fun it => it.reason) 0 (specBucketA pool)) (idsOf (specBucketA pool)) =
      (stampFrom (fun it => it.reason) 0 (specBucketA pool) ++
        stampFrom (fun it => it.reason) (specBucketA pool).length (specBucketB pool),
       idsOf (specBucketA pool) ++ idsOf (specBucketB pool)) := by
    rw [addByReasonGo_eq "trending" (50 * 25 / 100) pool 0 _ _ hnd]
    simp [specBucketB, stampFrom_length]
  have h3 : addByReasonGo "exploration" (50 * 15 / 100) pool 0
      (stampFrom (fun it => it.reason) 0 (specBucketA pool) ++
        stampFrom (fun it => it.reason) (specBucketA pool).length (specBucketB pool))
      (idsOf (specBucketA pool) ++ idsOf (specBucketB pool)) =
      (stampFrom (fun it => it.reason) 0 (specBucketA pool) ++
        stampFrom (fun it => it.reason) (specBucketA pool).length (specBucketB pool) ++
        stampFrom (fun it => it.reason)
          ((specBucketA pool).length + (specBucketB pool).length) (specBucketC pool),
       idsOf (specBucketA pool) ++ idsOf (specBucketB pool) ++ idsOf (specBucketC pool)) := by
    rw [addByReasonGo_eq "exploration" (50 * 15 / 100) pool 0 _ _ hnd]
    simp [specBucketC, stampFrom_length, List.append_assoc]
  have h4 : fillGo pool
      (stampFrom (fun it => it.reason) 0 (specBucketA pool) ++
        stampFrom (fun it => it.reason) (specBucketA pool).length (specBucketB pool) ++
        stampFrom (fun it => it.reason)
          ((specBucketA pool).length + (specBucketB pool).length) (specBucketC pool))
      (idsOf (specBucketA pool) ++ idsOf (specBucketB pool) ++ idsOf (specBucketC pool)) =
      (stampFrom (fun it => it.reason) 0 (specBucketA pool) ++
        stampFrom (fun it => it.reason) (specBucketA pool).length (specBucketB pool) ++
        stampFrom (fun it => it.reason)
          ((specBucketA pool).length + (specBucketB pool).length) (specBucketC pool) ++
        stampFrom (fun _ => "preference_match")
          ((specBucketA pool).length + (specBucketB pool).length + (specBucketC pool).length)
          (specFill pool),
       idsOf (specBucketA pool) ++ idsOf (specBucketB pool) ++ idsOf (specBucketC pool) ++
        idsOf (specFill pool)) := by
    rw [fillGo_eq pool _ _ hnd]
    simp [specFill, stampFrom_length, List.append_assoc, Nat.add_assoc]
  dsimp only [buildQueue]
  rw [h1]
  dsimp only
  rw [h2]
  dsimp only
  rw [h3]
  dsimp only
  rw [h4]
  rfl

/-- The item identifiers of a queue. -/
def idsOfQ (q : List QueueEntry) : List String := q.map fun e => e.movieId

/-- Stamping preserves the identifier sequence. -/
theorem stampFrom_ids (tag : ScoredMovie → String) :
    ∀ (p : ℕ) (l : List ScoredMovie), idsOfQ (stampFrom tag p l) = idsOf l := by
  intro p l
  induction l generalizing p with
  | nil => rfl
  | cons it rest ih => simp [stampFrom, idsOfQ, idsOf, List.map_cons] at ih ⊢; exact ih _

/-- Stamped entries carry consecutive positions starting at `p`. -/
theorem stampFrom_positions (tag : ScoredMovie → String) :
    ∀ (p : ℕ) (l : List ScoredMovie),
      (stampFrom tag p l).map (fun e => e.position) = List.range' p l.length := by
  intro p l
  induction l generalizing p with
  | nil => rfl
  | cons it rest ih => simp [stampFrom, List.range'_succ, ih]

/-- Concatenating four contiguous ranges. -/
theorem range'_quad (a b c d : ℕ) :
    List.range' 0 a ++ List.range' a b ++ List.range' (a + b) c ++ List.range' (a + b + c) d =
      List.range' 0 (a + b + c + d) := by
  have e1 : List.range' 0 a ++ List.range' a b = List.range' 0 (a + b) := by
    simpa [Nat.add_comm b a] using List.range'_append_1 0 a b
  have e2 : List.range' 0 (a + b) ++ List.range' (a + b) c = List.range' 0 (a + b + c) := by
    simpa [Nat.add_comm c (a + b)] using List.range'_append_1 0 (a + b) c
  have e3 : List.range' 0 (a + b + c) ++ List.range' (a + b + c) d =
      List.range' 0 (a + b + c + d) := by
    simpa [Nat.add_comm d (a + b + c)] using List.range'_append_1 0 (a + b + c) d
  rw [e1, e2, e3]

/-- The stratified queue holds at most 50 entries (bucket quotas
30 + 12 + 7 = 49, and the fill pass stops at 50). -/
theorem specInitialQueue_length_le (pool : List ScoredMovie) :
    (specInitialQueue pool).length ≤ 50 := by
  have hA : (specBucketA pool).length ≤ 30 := List.length_take_le _ _
  have hB : (specBucketB pool).length ≤ 12 := List.length_take_le _ _
  have hC : (specBucketC pool).length ≤ 7 := List.length_take_le _ _
  have hD : (specFill pool).length ≤
      50 - ((specBucketA pool).length + (specBucketB pool).length +
        (specBucketC pool).length) := List.length_take_le _ _
  simp only [specInitialQueue, List.length_append, stampFrom_length]
  omega

/-- The stratified queue's `position` fields are the dense ranks
`0 .. length - 1`. -/
theorem specInitialQueue_positions (pool : List ScoredMovie) :
    (specInitialQueue pool).map (fun e => e.position) =
      List.range (specInitialQueue pool).length := by
  simp only [specInitialQueue, List.map_append, stampFrom_positions, List.length_append,
    stampFrom_length]
  rw [List.range_eq_range']
  exact range'_quad _ _ _ _

/-- Members of a spec bucket/fill satisfy the bucket's filter predicate. -/
theorem mem_specBucketB (pool : List ScoredMovie) (it : ScoredMovie)
    (h : it ∈ specBucketB pool) :
    it.reason = "trending" ∧ it.movieId ∉ idsOf (specBucketA pool) := by
  have hf := List.mem_of_mem_take (by exact h)
  have := List.of_mem_filter hf
  rwa [decide_eq_true_eq] at this

theorem mem_specBucketC (pool : List ScoredMovie) (it : ScoredMovie)
    (h : it ∈ specBucketC pool) :
    it.reason = "exploration" ∧
      it.movieId ∉ idsOf (specBucketA pool) ++ idsOf (specBucketB pool) := by
  have hf := List.mem_of_mem_take (by exact h)
  have := List.of_mem_filter hf
  rwa [decide_eq_true_eq] at this

theorem mem_specFill (pool : List ScoredMovie) (it : ScoredMovie)
    (h : it ∈ specFill pool) :
    it.movieId ∉
      idsOf (specBucketA pool) ++ idsOf (specBucketB pool) ++ idsOf (specBucketC pool) := by
  have hf := List.mem_of_mem_take (by exact h)
  have := List.of_mem_filter hf
  rwa [decide_eq_true_eq] at this

/-- Each spec bucket is a sublist of the pool, so its identifiers are
duplicate-free whenever the pool's are. -/
theorem nodup_idsOf_of_sublist {l pool : List ScoredMovie}
    (hs : List.Sublist l pool) (hnd : (idsOf pool).Nodup) : (idsOf l).Nodup :=
  List.Nodup.sublist (List.Sublist.map _ hs) hnd

theorem specBucketA_sublist (pool : List ScoredMovie) : List.Sublist (specBucketA pool) pool :=
  List.Sublist.trans (List.take_sublist _ _) (List.filter_sublist _)

theorem specBucketB_sublist (pool : List ScoredMovie) : List.Sublist (specBucketB pool) pool :=
  List.Sublist.trans (List.take_sublist _ _) (List.filter_sublist _)

theorem specBucketC_sublist (pool : List ScoredMovie) : List.Sublist (specBucketC pool) pool :=
  List.Sublist.trans (List.take_sublist _ _) (List.filter_sublist _)

theorem specFill_sublist (pool : List ScoredMovie) : List.Sublist (specFill pool) pool :=
  List.Sublist.trans (List.take_sublist _ _) (List.filter_sublist _)

/-- No item identifier appears twice in the stratified queue. -/
theorem specInitialQueue_nodup (pool : List ScoredMovie) (hnd : (idsOf pool).Nodup) :
    (idsOfQ (specInitialQueue pool)).Nodup := by
  have hidq : idsOfQ (specInitialQueue pool) =
      idsOf (specBucketA pool) ++ idsOf (specBucketB pool) ++ idsOf (specBucketC pool) ++
        idsOf (specFill pool) := by
    simp only [specInitialQueue, idsOfQ, List.map_append]
    rw [← idsOfQ, ← idsOfQ, ← idsOfQ, ← idsOfQ, stampFrom_ids, stampFrom_ids, stampFrom_ids,
      stampFrom_ids]
  have hndA : (idsOf (specBucketA pool)).Nodup :=
    nodup_idsOf_of_sublist (specBucketA_sublist pool) hnd
  have hndB : (idsOf (specBucketB pool)).Nodup :=
    nodup_idsOf_of_sublist (specBucketB_sublist pool) hnd
  have hndC : (idsOf (specBucketC pool)).Nodup :=
    nodup_idsOf_of_sublist (specBucketC_sublist pool) hnd
  have hndD : (idsOf (specFill pool)).Nodup :=
    nodup_idsOf_of_sublist (specFill_sublist pool) hnd
  have hBnotA : ∀ x ∈ idsOf (specBucketB pool), x ∉ idsOf (specBucketA pool) := by
    intro x hx
    obtain ⟨it, hit, rfl⟩ := List.mem_map.mp hx
    exact (mem_specBucketB pool it hit).2
  have hCnotAB : ∀ x ∈ idsOf (specBucketC pool),
      x ∉ idsOf (specBucketA pool) ++ idsOf (specBucketB pool) := by
    intro x hx
    obtain ⟨it, hit, rfl⟩ := List.mem_map.mp hx
    exact (mem_specBucketC pool it hit).2
  have hDnotABC : ∀ x ∈ idsOf (specFill pool),
      x ∉ idsOf (specBucketA pool) ++ idsOf (specBucketB pool) ++
        idsOf (specBucketC pool) := by
    intro x hx
    obtain ⟨it, hit, rfl⟩ := List.mem_map.mp hx
    exact mem_specFill pool it hit
  rw [hidq]
  rw [List.nodup_append]
  refine ⟨?_, hndD, ?_⟩
  · rw [List.nodup_append]
    refine ⟨?_, hndC, ?_⟩
    · rw [List.nodup_append]
      exact ⟨hndA, hndB, fun a ha hb => hBnotA a hb ha⟩
    · intro a ha hc
      exact hCnotAB a hc ha
  · intro a ha hd
    exact hDnotABC a hd ha

/-- C7: for every candidate pool (with distinct item identifiers, as
Firestore document ids are) and every set of selected categories, the
initial-generation queue builder produces the spec-side stratified queue:
the pool is sorted descending by (bonus-augmented) score, the queue equals
the `category_match` bucket (quota ⌊50·0.6⌋ = 30), then the `trending`
bucket (⌊50·0.25⌋ = 12), then the `exploration` bucket (⌊50·0.15⌋ = 7) —
each bucket taking the highest-scoring untaken candidates in order — then
the highest-scoring not-yet-added candidates tagged `preference_match` up
to 50 entries; each identifier appears at most once, the queue holds at
most 50 entries, and every entry's `position` equals its index. -/
theorem generateInitialRecommendations_queue (selectedCategories : List String)
    (allMovies : List Movie) (now : ℚ)
    (hnd : (allMovies.map fun m => m.id).Nodup) :
    List.Sorted scoreGe (scoredPool selectedCategories allMovies now) ∧
    (scoredPool selectedCategories allMovies now).Perm
      (allMovies.map (scoreMovie (initialPreferencesFor selectedCategories)
        selectedCategories now)) ∧
    generateInitialQueue selectedCategories allMovies now =
      specInitialQueue (scoredPool selectedCategories allMovies now) ∧
    (idsOfQ (generateInitialQueue selectedCategories allMovies now)).Nodup ∧
    (generateInitialQueue selectedCategories allMovies now).length ≤ 50 ∧
    (generateInitialQueue selectedCategories allMovies now).map (fun e => e.position) =
      List.range (generateInitialQueue selectedCategories allMovies now).length := by
  have hperm : (scoredPool selectedCategories allMovies now).Perm
      (allMovies.map (scoreMovie (initialPreferencesFor selectedCategories)
        selectedCategories now)) := List.perm_insertionSort scoreGe _
  have hids : idsOf (allMovies.map (scoreMovie (initialPreferencesFor selectedCategories)
      selectedCategories now)) = allMovies.map (fun m => m.id) := by
    simp only [idsOf, List.map_map]
    rfl
  have hpool_nd : (idsOf (scoredPool selectedCategories allMovies now)).Nodup := by
    have h2 := hperm.map (fun it => it.movieId)
    rw [show List.map (fun it => it.movieId)
        (allMovies.map (scoreMovie (initialPreferencesFor selectedCategories)
          selectedCategories now)) = allMovies.map (fun m => m.id) from hids] at h2
    exact (List.Perm.nodup_iff h2).mpr hnd
  have hq : generateInitialQueue selectedCategories allMovies now =
      specInitialQueue (scoredPool selectedCategories allMovies now) :=
    buildQueue_eq_spec _ hpool_nd
  refine ⟨List.sorted_insertionSort scoreGe _, hperm, hq, ?_, ?_, ?_⟩
  · rw [hq]; exact specInitialQueue_nodup _ hpool_nd
  · rw [hq]; exact specInitialQueue_length_le _
  · rw [hq]; exact specInitialQueue_positions _

/-- A popular, well-rated movie with a zero feature vector (so zero base
score): it is tagged `trending`. -/
def demoTrendingMovie : Movie :=
  ⟨"m1", some (fun _ => some 0), none, none, some 200, some 8, none⟩

/-- A pure action movie with no popularity data: its base score against
action-seeded preferences is positive, and it is tagged `exploration`. -/
def demoActionMovie : Movie :=
  ⟨"m2", some (fun d => if d = Dim.genre_action then some 1 else some 0),
   none, none, none, none, none⟩

/-- Witness for C7 on a concrete two-movie pool. -/
theorem generateInitialRecommendations_queue_witness :
    (idsOfQ (generateInitialQueue ["action"] [demoTrendingMovie, demoActionMovie] 0)).Nodup ∧
    (generateInitialQueue ["action"] [demoTrendingMovie, demoActionMovie] 0).length ≤ 50 ∧
    (generateInitialQueue ["action"] [demoTrendingMovie, demoActionMovie] 0).map
        (fun e => e.position) =
      List.range (generateInitialQueue ["action"] [demoTrendingMovie,
        demoActionMovie] 0).length := by
  have h := generateInitialRecommendations_queue ["action"]
    [demoTrendingMovie, demoActionMovie] 0 (by decide)
  exact ⟨h.2.2.2.1, h.2.2.2.2.1, h.2.2.2.2.2⟩

/-- The reason-dependent score bonus added by
`generateInitialRecommendations` before ranking. -/
def reasonBonus (reason : String) : ℚ :=
  if reason = "category_match" then 1/2 else if reason = "trending" then 3/10 else 0

/-- C10: the score stored with each scored candidate is not the scoring
function's `finalScore` alone: it is `finalScore` plus 0.5 for a candidate
tagged `category_match`, 0.3 for one tagged `trending`, 0 otherwise; and
candidates are ranked by this bonus-augmented score, so on a concrete pool
a trending item (base score 0) outranks an item with a strictly higher
`finalScore`. -/
theorem scoreMovie_bonus :
    (∀ (prefs : Vec) (cats : List String) (now : ℚ) (movie : Movie),
      (scoreMovie prefs cats now movie).score =
        (scoreMovie prefs cats now movie).scoreDetails.finalScore +
          reasonBonus (scoreMovie prefs cats now movie).reason) ∧
    (scoreMovie (initialPreferencesFor ["action"]) ["action"] 0
        demoTrendingMovie).scoreDetails.finalScore <
      (scoreMovie (initialPreferencesFor ["action"]) ["action"] 0
        demoActionMovie).scoreDetails.finalScore ∧
    (scoreMovie (initialPreferencesFor ["action"]) ["action"] 0
        demoTrendingMovie).score >
      (scoreMovie (initialPreferencesFor ["action"]) ["action"] 0
        demoActionMovie).score ∧
    idsOf (scoredPool ["action"] [demoTrendingMovie, demoActionMovie] 0) = ["m1", "m2"] ∧
    idsOfQ (generateInitialQueue ["action"] [demoTrendingMovie, demoActionMovie] 0) =
      ["m1", "m2"] := by
  have hlow : jsToLower "action" = "action" := by decide
  have hsm1 : scoreMovie (initialPreferencesFor ["action"]) ["action"] 0 demoTrendingMovie =
      ⟨"m1", 3/10, "trending", ⟨0, 0, 0, 0⟩⟩ := by
    norm_num +decide [scoreMovie, demoTrendingMovie, calculateRecommendationScore,
      FEATURE_DIMENSIONS, orZero, initialPreferencesFor, jgt, dimName, hlow]
  have hsm2 : scoreMovie (initialPreferencesFor ["action"]) ["action"] 0 demoActionMovie =
      ⟨"m2", 1/18, "exploration", ⟨1/18, 0, 1/18, 1/2⟩⟩ := by
    norm_num +decide [scoreMovie, demoActionMovie, calculateRecommendationScore,
      FEATURE_DIMENSIONS, orZero, initialPreferencesFor, jgt, dimName, hlow]
  have hpool : scoredPool ["action"] [demoTrendingMovie, demoActionMovie] 0 =
      [⟨"m1", 3/10, "trending", ⟨0, 0, 0, 0⟩⟩,
       ⟨"m2", 1/18, "exploration", ⟨1/18, 0, 1/18, 1/2⟩⟩] := by
    norm_num [scoredPool, sortScored, hsm1, hsm2, scoreGe]
  refine ⟨?_, by rw [hsm1, hsm2]; norm_num, by rw [hsm1, hsm2]; norm_num,
    by rw [hpool]; rfl, ?_⟩
  case refine_2 =>
    show idsOfQ (buildQueue (scoredPool ["action"] [demoTrendingMovie, demoActionMovie] 0)) =
      ["m1", "m2"]
    rw [hpool]
    norm_num +decide [buildQueue, addByReasonGo, fillGo, idsOfQ]
  intro prefs cats now movie
  unfold scoreMovie reasonBonus
  cases hg : movie.genres with
  | none =>
      dsimp only
      by_cases hb : (jgt movie.popularity 100 && jgt movie.voteAverage 7) = true
      · rw [if_pos hb]; simp
      · rw [if_neg hb]; simp
  | some gs =>
      dsimp only
      by_cases hmatch : gs.any (fun genre => cats.any fun cat =>
          jsIncludes (jsToLower genre) (jsToLower cat)) = true
      · rw [if_pos hmatch]
        by_cases hb : (jgt movie.popularity 100 && jgt movie.voteAverage 7) = true
        · rw [if_pos hb]; simp
        · rw [if_neg hb]; simp
      · rw [if_neg hmatch]
        by_cases hb : (jgt movie.popularity 100 && jgt movie.voteAverage 7) = true
        · rw [if_pos hb]; simp
        · rw [if_neg hb]; simp
